import Mathlib

/-!
Verification of the SimpleOS core (src/SimpleOS.py) against its
natural-language specification.  The Python source is shallowly embedded:
machine words are `Nat` (masked with `% 2^32` / `&&& 0xFFFFFFFF` exactly where
the source masks), addresses that the source allows to be negative are `Int`,
fallible operations return `Except`, and in-place mutation becomes explicit
state passing.  Where the Python class `Memory` defines a method twice, the
*later* definition is the effective one (Python class-body semantics) and is
the one embedded here.
-/

set_option maxRecDepth 4000

namespace SimpleOS

/-- Instruction packing helper from the source:
`((opcode & 0xFF) << 24) | ((dst & 0x0F) << 20) | ((src & 0x0F) << 16) | (imm16 & 0xFFFF)`. -/
def pack_instruction (opcode : Nat) (dst : Nat := 0) (src : Nat := 0) (imm16 : Nat := 0) : Nat :=
  ((opcode &&& 0xFF) <<< 24) ||| ((dst &&& 0x0F) <<< 20) ||| ((src &&& 0x0F) <<< 16) |||
    (imm16 &&& 0xFFFF)

/-- Instruction unpacking helper from the source: extracts
`(opcode, dst, src, imm16)` fields of a 32-bit word. -/
def unpack_instruction (word : Nat) : Nat × Nat × Nat × Nat :=
  ((word >>> 24) &&& 0xFF, (word >>> 20) &&& 0x0F, (word >>> 16) &&& 0x0F, word &&& 0xFFFF)

/-- Sign interpretation of a 16-bit field (`to_signed16` in the source). -/
def to_signed16 (x : Nat) : Int :=
  let x := x &&& 0xFFFF
  if x &&& 0x8000 ≠ 0 then (x : Int) - 0x10000 else (x : Int)

theorem land_255 (x : Nat) : x &&& 255 = x % 256 := Nat.and_pow_two_sub_one_eq_mod x 8

theorem land_15 (x : Nat) : x &&& 15 = x % 16 := Nat.and_pow_two_sub_one_eq_mod x 4

theorem land_65535 (x : Nat) : x &&& 65535 = x % 65536 := Nat.and_pow_two_sub_one_eq_mod x 16

theorem lor_eq_add_pow (a b n : Nat) (h : b < 2 ^ n) : (a * 2 ^ n) ||| b = a * 2 ^ n + b := by
  rw [Nat.mul_comm]
  exact (Nat.mul_add_lt_is_or h a).symm

theorem pack_eq_arith (o d s i : Nat) :
    pack_instruction o d s i =
      (o % 256) * 2 ^ 24 + ((d % 16) * 2 ^ 20 + ((s % 16) * 2 ^ 16 + i % 65536)) := by
  unfold pack_instruction
  rw [land_255, land_15, land_15, land_65535, Nat.shiftLeft_eq, Nat.shiftLeft_eq,
    Nat.shiftLeft_eq, Nat.lor_assoc, Nat.lor_assoc]
  rw [lor_eq_add_pow _ _ 16 (by have := Nat.mod_lt i (y := 65536) (by norm_num); omega)]
  rw [lor_eq_add_pow _ _ 20 (by
    have h1 : s % 16 < 16 := Nat.mod_lt s (by norm_num)
    have h2 : i % 65536 < 65536 := Nat.mod_lt i (by norm_num)
    have : (2 : Nat) ^ 16 = 65536 := by norm_num
    have : (2 : Nat) ^ 20 = 1048576 := by norm_num
    omega)]
  rw [lor_eq_add_pow _ _ 24 (by
    have h1 : d % 16 < 16 := Nat.mod_lt d (by norm_num)
    have h2 : s % 16 < 16 := Nat.mod_lt s (by norm_num)
    have h3 : i % 65536 < 65536 := Nat.mod_lt i (by norm_num)
    have e1 : (2 : Nat) ^ 16 = 65536 := by norm_num
    have e2 : (2 : Nat) ^ 20 = 1048576 := by norm_num
    have e3 : (2 : Nat) ^ 24 = 16777216 := by norm_num
    omega)]

theorem unpack_pack (o d s i : Nat) (ho : o < 256) (hd : d < 16) (hs : s < 16)
    (hi : i < 65536) : unpack_instruction (pack_instruction o d s i) = (o, d, s, i) := by
  unfold unpack_instruction
  rw [pack_eq_arith, land_255, land_15, land_15, land_65535, Nat.shiftRight_eq_div_pow,
    Nat.shiftRight_eq_div_pow, Nat.shiftRight_eq_div_pow]
  have e1 : (2 : Nat) ^ 16 = 65536 := by norm_num
  have e2 : (2 : Nat) ^ 20 = 1048576 := by norm_num
  have e3 : (2 : Nat) ^ 24 = 16777216 := by norm_num
  rw [e1, e2, e3]
  refine Prod.ext ?_ (Prod.ext ?_ (Prod.ext ?_ ?_)) <;> simp only <;> omega

/-- C5: for every field-valid input (opcode in 0..255, dst in 0..15, src in 0..15,
imm16 in 0..65535), unpacking the packed instruction word returns exactly the
original `(opcode, dst, src, imm16)` quadruple. -/
theorem C5_encode_decode_roundtrip (o d s i : Nat) (ho : o < 256) (hd : d < 16)
    (hs : s < 16) (hi : i < 65536) :
    unpack_instruction (pack_instruction o d s i) = (o, d, s, i) :=
  unpack_pack o d s i ho hd hs hi

/-- Witness for C5 at a concrete field-valid input. -/
theorem C5_encode_decode_roundtrip_witness :
    (202 : Nat) < 256 ∧ (7 : Nat) < 16 ∧ (3 : Nat) < 16 ∧ (40000 : Nat) < 65536 ∧
      unpack_instruction (pack_instruction 202 7 3 40000) = (202, 7, 3, 40000) :=
  ⟨by decide, by decide, by decide, by decide,
    C5_encode_decode_roundtrip 202 7 3 40000 (by decide) (by decide) (by decide) (by decide)⟩

/-- Error taxonomy of the memory subsystem; each constructor corresponds to one
raise site of the effective `Memory` methods in the source. -/
inductive MemErr where
  | outOfRange
  | readProtected
  | crossBoundary
  | writeProtected
  | negativeAddress
  deriving DecidableEq, Repr

/-- Little-endian byte decoding (`btoi_le` in the source). -/
def btoi_le (b0 b1 b2 b3 : Nat) : Nat :=
  b0 ||| (b1 <<< 8) ||| (b2 <<< 16) ||| (b3 <<< 24)

/-- Little-endian byte encoding (`itob_le` in the source). -/
def itob_le (val : Nat) : List Nat :=
  let v := val &&& 0xFFFFFFFF
  [v &&& 0xFF, (v >>> 8) &&& 0xFF, (v >>> 16) &&& 0xFF, (v >>> 24) &&& 0xFF]

/-- State of the `Memory` object: the byte buffer, its advertised size, the
protection dictionary `addr -> (size, permissions, name)` in insertion order
(the name string is dropped), and the keys `(start, end)` of the MMIO-handler
dictionary (the handler objects themselves are never consulted by the
effective byte/word accessors, so only the registered ranges are kept). -/
structure Mem where
  size : Nat
  data : List Nat
  protected_regions : List (Int × Int × Nat)
  mmio_handlers : List (Int × Int)
  deriving DecidableEq, Repr

/-- Protection scan of `Memory.check_address`: for each protected region in
dictionary order, a read-permission check, then the cross-boundary check that
only applies to accesses longer than one byte. -/
def check_prot_read : List (Int × Int × Nat) → Int → Int → Nat → Except MemErr Unit
  | [], _, _, _ => .ok ()
  | (pa, psz, perms) :: rest, addr, len, size =>
    if pa ≤ addr ∧ addr < pa + psz then
      if perms &&& 0x1 = 0 then .error .readProtected
      else if 1 < len ∧ pa + psz < addr + len ∧ (size : Int) ≤ addr + len - 1 then
        .error .crossBoundary
      else check_prot_read rest addr len size
    else check_prot_read rest addr len size

/-- Effective `Memory.check_address`: bounds check against `self.size`, then the
protection scan. -/
def check_address (m : Mem) (addr : Int) (length : Int := 1) : Except MemErr Unit :=
  if addr < 0 ∨ (m.size : Int) < addr + length then .error .outOfRange
  else check_prot_read m.protected_regions addr length m.size

/-- Write-permission scan shared by the effective `write_byte`/`write_word`:
for each protected region containing `addr`, bit `0x2` must be set. -/
def check_prot_write : List (Int × Int × Nat) → Int → Except MemErr Unit
  | [], _ => .ok ()
  | (pa, psz, perms) :: rest, addr =>
    if pa ≤ addr ∧ addr < pa + psz ∧ perms &&& 0x2 = 0 then .error .writeProtected
    else check_prot_write rest addr

/-- Effective (later) `Memory.read_byte`: `check_address` then a direct buffer
read.  Note that, unlike the shadowed earlier definition, it consults neither
the MMIO table nor the page table nor the cache. -/
def read_byte (m : Mem) (addr : Int) : Except MemErr Nat := do
  check_address m addr 1
  return m.data.getD addr.toNat 0

/-- Effective (later) `Memory.write_byte`: `check_address`, the
write-permission scan, then a direct buffer write.  No MMIO dispatch. -/
def write_byte (m : Mem) (addr : Int) (val : Nat) : Except MemErr Mem := do
  check_address m addr 1
  check_prot_write m.protected_regions addr
  return { m with data := m.data.set addr.toNat (val &&& 0xFF) }

/-- Effective (later) `Memory.read_word`: `check_address` with length 4 then a
little-endian read of 4 buffer bytes.  It performs no alignment check. -/
def read_word (m : Mem) (addr : Int) : Except MemErr Nat := do
  check_address m addr 4
  return btoi_le (m.data.getD addr.toNat 0) (m.data.getD (addr.toNat + 1) 0)
    (m.data.getD (addr.toNat + 2) 0) (m.data.getD (addr.toNat + 3) 0)

/-- Effective (later) `Memory.write_word`: `check_address` with length 4, the
write-permission scan, then a little-endian write of 4 buffer bytes.  It
performs no alignment check. -/
def write_word (m : Mem) (addr : Int) (val : Nat) : Except MemErr Mem := do
  check_address m addr 4
  check_prot_write m.protected_regions addr
  return { m with data :=
    (match itob_le val with
    | [b0, b1, b2, b3] =>
      (((m.data.set addr.toNat b0).set (addr.toNat + 1) b1).set (addr.toNat + 2) b2).set
        (addr.toNat + 3) b3
    | _ => m.data) }

/-- Python exception semantics for a failed write: the object is left exactly
as it was, so the result state of a raising `write_byte` is the input state. -/
def write_byte_run (m : Mem) (addr : Int) (val : Nat) : Mem :=
  match write_byte m addr val with
  | .ok m' => m'
  | .error _ => m

/-- Python-dict insertion: replace the value at an existing key in place,
otherwise append the new binding at the end. -/
def dict_set (l : List (Int × Int × Nat)) (k : Int) (v : Int × Nat) : List (Int × Int × Nat) :=
  if l.any (fun e => e.1 == k) then l.map (fun e => if e.1 = k then (k, v.1, v.2) else e)
  else l ++ [(k, v.1, v.2)]

/-- `Memory.check_expand`: grow the buffer (doubling, or to fit) when the
required size exceeds the current size; never shrink. -/
def check_expand (m : Mem) (required_size : Int) : Mem :=
  if required_size ≤ (m.size : Int) then m
  else
    let new_size := max (2 * (m.size : Int)) required_size
    { m with size := new_size.toNat,
             data := m.data ++ List.replicate (new_size - (m.size : Int)).toNat 0 }

/-- `Memory.register_region`: reject a negative base, expand to fit, then
record `(size, permissions)` in the protection dictionary. -/
def register_region (m : Mem) (addr : Int) (rsize : Int) (permissions : Nat := 0x3) :
    Except MemErr Mem :=
  if addr < 0 then .error .negativeAddress
  else
    let m' := check_expand m (addr + rsize)
    .ok { m' with protected_regions := dict_set m'.protected_regions addr (rsize, permissions) }

/-- Dict insertion keyed by `(start, end)` ranges, mirroring
`Memory.register_mmio`, which stores `handlers[(start, start+size)]`. -/
def mmio_set (l : List (Int × Int)) (k : Int × Int) : List (Int × Int) :=
  if l.any (fun e => e == k) then l.map (fun e => if e = k then k else e)
  else l ++ [k]

/-- `Memory.register_mmio`: record the range `(start, start + size)`. -/
def register_mmio (m : Mem) (start size : Int) : Mem :=
  { m with mmio_handlers := mmio_set m.mmio_handlers (start, start + size) }

theorem check_prot_read_len1 (l : List (Int × Int × Nat)) (addr : Int) (size : Nat) :
    check_prot_read l addr 1 size = .ok () ∨
      check_prot_read l addr 1 size = .error .readProtected := by
  induction l with
  | nil => exact Or.inl rfl
  | cons e rest ih =>
    obtain ⟨pa, psz, perms⟩ := e
    simp only [check_prot_read]
    by_cases hin : pa ≤ addr ∧ addr < pa + psz
    · rw [if_pos hin]
      by_cases hr : perms &&& 0x1 = 0
      · rw [if_pos hr]; exact Or.inr rfl
      · rw [if_neg hr, if_neg (by simp)]
        exact ih
    · rw [if_neg hin]; exact ih

theorem check_prot_read_len1_mem (l : List (Int × Int × Nat)) (pa psz : Int) (perms : Nat)
    (addr : Int) (size : Nat) (hmem : (pa, psz, perms) ∈ l) (h1 : pa ≤ addr)
    (h2 : addr < pa + psz) (hr : perms &&& 0x1 = 0) :
    check_prot_read l addr 1 size = .error .readProtected := by
  induction l with
  | nil => cases hmem
  | cons e rest ih =>
    obtain ⟨qa, qsz, qperms⟩ := e
    rcases List.mem_cons.mp hmem with heq | htl
    · simp only [Prod.mk.injEq] at heq
      obtain ⟨ha, hb, hc⟩ := heq
      subst ha; subst hb; subst hc
      simp only [check_prot_read]
      rw [if_pos ⟨h1, h2⟩, if_pos hr]
    · simp only [check_prot_read]
      by_cases hin : qa ≤ addr ∧ addr < qa + qsz
      · rw [if_pos hin]
        by_cases hqr : qperms &&& 0x1 = 0
        · rw [if_pos hqr]
        · rw [if_neg hqr, if_neg (by simp)]
          exact ih htl
      · rw [if_neg hin]
        exact ih htl

theorem check_prot_write_mem (l : List (Int × Int × Nat)) (pa psz : Int) (perms : Nat)
    (addr : Int) (hmem : (pa, psz, perms) ∈ l) (h1 : pa ≤ addr) (h2 : addr < pa + psz)
    (hw : perms &&& 0x2 = 0) :
    check_prot_write l addr = .error .writeProtected := by
  induction l with
  | nil => cases hmem
  | cons e rest ih =>
    obtain ⟨qa, qsz, qperms⟩ := e
    rcases List.mem_cons.mp hmem with heq | htl
    · simp only [Prod.mk.injEq] at heq
      obtain ⟨ha, hb, hc⟩ := heq
      subst ha; subst hb; subst hc
      simp only [check_prot_write]
      rw [if_pos ⟨h1, h2, hw⟩]
    · simp only [check_prot_write]
      by_cases hcond : qa ≤ addr ∧ addr < qa + qsz ∧ qperms &&& 0x2 = 0
      · rw [if_pos hcond]
      · rw [if_neg hcond]
        exact ih htl

theorem dict_set_mem (l : List (Int × Int × Nat)) (k : Int) (v : Int × Nat) :
    (k, v.1, v.2) ∈ dict_set l k v := by
  unfold dict_set
  by_cases h : l.any (fun e => e.1 == k)
  · rw [if_pos h]
    obtain ⟨e, he, hek⟩ := List.any_eq_true.mp h
    refine List.mem_map.mpr ⟨e, he, ?_⟩
    rw [if_pos (by simpa using hek)]
  · rw [if_neg h]
    exact List.mem_append_right _ (List.mem_singleton.mpr rfl)

theorem register_region_ok (m : Mem) (pa psz : Int) (perms : Nat) (hpa : 0 ≤ pa) :
    ∃ m', register_region m pa psz perms = .ok m' ∧
      (pa, psz, perms) ∈ m'.protected_regions ∧ pa + psz ≤ (m'.size : Int) := by
  refine ⟨_, by rw [register_region, if_neg (by omega)], dict_set_mem _ _ _, ?_⟩
  show pa + psz ≤ ((check_expand m (pa + psz)).size : Int)
  unfold check_expand
  by_cases h : pa + psz ≤ (m.size : Int)
  · rwa [if_pos h]
  · rw [if_neg h]
    simp only
    omega

/-- C4: writing to an in-bounds address of a region registered read-only
(bit 0x1 set, bit 0x2 clear) via `register_region` raises a protection
violation (either the read scan of `check_address` on some other overlapping
region, or the write-permission scan), and the memory is left unchanged. -/
theorem C4_readonly_region_write_rejected (m : Mem) (pa psz addr : Int) (perms val : Nat)
    (hpa : 0 ≤ pa) (hr : perms &&& 0x1 ≠ 0) (hw : perms &&& 0x2 = 0)
    (h1 : pa ≤ addr) (h2 : addr < pa + psz) :
    ∃ m', register_region m pa psz perms = .ok m' ∧
      (write_byte m' addr val = .error .readProtected ∨
        write_byte m' addr val = .error .writeProtected) ∧
      write_byte_run m' addr val = m' := by
  obtain ⟨m', hok, hmem, hsz⟩ := register_region_ok m pa psz perms hpa
  have hbound : ¬(addr < 0 ∨ (m'.size : Int) < addr + 1) := by omega
  have herr : write_byte m' addr val = .error .readProtected ∨
      write_byte m' addr val = .error .writeProtected := by
    unfold write_byte check_address
    rw [if_neg hbound]
    rcases check_prot_read_len1 m'.protected_regions addr m'.size with hok' | herr'
    · rw [hok', check_prot_write_mem m'.protected_regions pa psz perms addr hmem h1 h2 hw]
      exact Or.inr rfl
    · rw [herr']
      exact Or.inl rfl
  refine ⟨m', hok, herr, ?_⟩
  unfold write_byte_run
  rcases herr with h | h <;> rw [h]

/-- Witness for C4: registering a read-only region over bytes 2..5 of a small
memory and writing inside it fails and leaves the memory unchanged. -/
theorem C4_readonly_region_write_rejected_witness :
    ∃ m', register_region ⟨8, [1, 2, 3, 4, 5, 6, 7, 8], [], []⟩ 2 4 0x1 = .ok m' ∧
      (write_byte m' 3 0xEE = .error .readProtected ∨
        write_byte m' 3 0xEE = .error .writeProtected) ∧
      write_byte_run m' 3 0xEE = m' :=
  C4_readonly_region_write_rejected ⟨8, [1, 2, 3, 4, 5, 6, 7, 8], [], []⟩ 2 4 3 0x1 0xEE
    (by decide) (by decide) (by decide) (by decide) (by decide)

/-- C10: every access through the effective `write_byte` first passes
`check_address`, which demands the read bit; writing inside a write-only
region (bit 0x2 set, bit 0x1 clear) therefore raises a read-protection
violation. -/
theorem C10_writeonly_region_write_raises_read_violation (m : Mem) (pa psz addr : Int)
    (perms val : Nat) (hnr : perms &&& 0x1 = 0) (hwset : perms &&& 0x2 ≠ 0)
    (hmem : (pa, psz, perms) ∈ m.protected_regions) (h1 : pa ≤ addr) (h2 : addr < pa + psz)
    (h0 : 0 ≤ addr) (hb : addr + 1 ≤ (m.size : Int)) :
    write_byte m addr val = .error .readProtected := by
  unfold write_byte check_address
  rw [if_neg (by omega),
    check_prot_read_len1_mem m.protected_regions pa psz perms addr m.size hmem h1 h2 hnr]
  rfl

/-- Witness for C10 on a concrete memory with one write-only region. -/
theorem C10_writeonly_region_write_raises_read_violation_witness :
    write_byte ⟨8, [1, 2, 3, 4, 5, 6, 7, 8], [(2, 4, 0x2)], []⟩ 3 0xEE =
      .error .readProtected :=
  C10_writeonly_region_write_raises_read_violation ⟨8, [1, 2, 3, 4, 5, 6, 7, 8], [(2, 4, 0x2)], []⟩
    2 4 3 0x2 0xEE (by decide) (by decide) (by decide) (by decide) (by decide) (by decide)
    (by decide)

/-- C2 (code bug): the effective `read_word`/`write_word` (the later
definitions, which shadow the earlier aligned ones) perform no alignment
check: at the misaligned address 2 both succeed instead of failing with a
misalignment error. -/
theorem C2_unaligned_word_access_not_rejected :
    (2 : Int) % 4 ≠ 0 ∧
      read_word ⟨8, [1, 2, 3, 4, 5, 6, 7, 8], [], []⟩ 2 = .ok 100992003 ∧
      write_word ⟨8, [1, 2, 3, 4, 5, 6, 7, 8], [], []⟩ 2 0xAABBCCDD =
        .ok ⟨8, [1, 2, 0xDD, 0xCC, 0xBB, 0xAA, 7, 8], [], []⟩ := by
  refine ⟨by decide, by rfl, by rfl⟩

/-- C3 (code bug): after `register_mmio 16 8`, the effective
`read_byte`/`write_byte` (the later definitions, which shadow the earlier
MMIO-dispatching ones) still access the byte buffer directly at address 18
inside the registered range: the write lands in the buffer and the read
returns the buffer byte, with no handler dispatch. -/
theorem C3_mmio_range_not_dispatched :
    (register_mmio ⟨32, List.replicate 32 0, [], []⟩ 16 8).mmio_handlers = [(16, 24)] ∧
      write_byte (register_mmio ⟨32, List.replicate 32 0, [], []⟩ 16 8) 18 0xAB =
        .ok ⟨32, (List.replicate 32 0).set 18 0xAB, [], [(16, 24)]⟩ ∧
      read_byte (register_mmio ⟨32, List.replicate 32 0, [], []⟩ 16 8) 18 = .ok 0 := by
  refine ⟨by rfl, by rfl, by rfl⟩

/-! CPU core.  Flag bit positions and opcode numbers are the architecture
constants of the source.  The opcode dispatch of `CPU.step` is embedded for
the opcode subset the claims exercise (NOP/NOP2, MOV, LOADI, LOAD, STORE,
ADD, DIV, MOD, HALT, ADC); all remaining opcodes map to an explicit
`unmodelledOpcode` marker and no claim depends on them. -/

def FLAG_ZERO : Nat := 1
def FLAG_NEG : Nat := 2
def FLAG_CARRY : Nat := 4
def FLAG_OVERFLOW : Nat := 8

/-- CPU state: the 16 general registers, the flags word, the program counter
(a Python int, so modelled as `Int`), the halted bit, the attached memory, and
the fetch-guard attributes `multithreading_enabled` and the optional
`(program_start, program_end)` pair. -/
structure CPUState where
  regs : List Nat
  eflags : Nat
  pc : Int
  halted : Bool
  mem : Mem
  multithreading_enabled : Bool
  program_bounds : Option (Int × Int)
  deriving DecidableEq, Repr

/-- Register read (`CPU.reg_read`): value masked to 32 bits.  The source's
index bounds check cannot fire from decoded fields, which are below 16. -/
def reg_read (st : CPUState) (idx : Nat) : Nat :=
  (st.regs.getD idx 0) &&& 0xFFFFFFFF

/-- Register write (`CPU.reg_write`): stores the value masked to 32 bits. -/
def reg_write (st : CPUState) (idx : Nat) (val : Nat) : CPUState :=
  { st with regs := st.regs.set idx (val &&& 0xFFFFFFFF) }

/-- `CPU.set_flag`: `eflags |= mask`. -/
def set_flag (st : CPUState) (mask : Nat) : CPUState :=
  { st with eflags := st.eflags ||| mask }

/-- `CPU.clear_flag`: `eflags &= ~mask`; on `Nat`, AND-NOT of a submask is
`eflags ^^^ (eflags &&& mask)`. -/
def clear_flag (st : CPUState) (mask : Nat) : CPUState :=
  { st with eflags := st.eflags ^^^ (st.eflags &&& mask) }

/-- `CPU.test_flag`: truthiness of `eflags & mask`. -/
def test_flag (st : CPUState) (mask : Nat) : Bool :=
  st.eflags &&& mask ≠ 0

/-- `CPU.update_zero_and_neg_flags`. -/
def update_zero_and_neg_flags (st : CPUState) (val : Nat) : CPUState :=
  let st := if val = 0 then set_flag st FLAG_ZERO else clear_flag st FLAG_ZERO
  if (val >>> 31) &&& 1 ≠ 0 then set_flag st FLAG_NEG else clear_flag st FLAG_NEG

/-- `CPU.alu_add`: 32-bit wrapping sum, carry from unsigned overflow, overflow
from the sign-comparison rule, then zero/negative update; returns the new
state and the truncated result. -/
def alu_add (st : CPUState) (a b : Nat) : CPUState × Nat :=
  let res := (a + b) &&& 0xFFFFFFFF
  let st := if a + b > 0xFFFFFFFF then set_flag st FLAG_CARRY else clear_flag st FLAG_CARRY
  let st :=
    if (a ^^^ b) &&& 0x80000000 = 0 ∧ (a ^^^ res) &&& 0x80000000 ≠ 0 then
      set_flag st FLAG_OVERFLOW
    else clear_flag st FLAG_OVERFLOW
  (update_zero_and_neg_flags st res, res)

/-- Errors that can escape the embedded instruction dispatch. -/
inductive StepErr where
  | memoryError (e : MemErr)
  | unmodelledOpcode
  deriving DecidableEq, Repr

/-- Second operand of ADC: the source register, or the sign-extended
immediate when the source field is the sentinel 0x0F. -/
def adc_operand (st : CPUState) (src imm16 : Nat) : Nat :=
  if src = 0x0F then ((to_signed16 imm16) % 4294967296).toNat else reg_read st src

/-- Body of the ADC opcode branch: second operand from register or
sign-extended immediate (sentinel src = 0x0F), add with the incoming carry,
set or clear the carry flag on unsigned overflow (the overflow flag is not
touched), write back the truncated result, update zero/negative. -/
def adc_exec (st : CPUState) (dst src imm16 : Nat) : CPUState :=
  let a := reg_read st dst
  let b := adc_operand st src imm16
  let carry := if test_flag st FLAG_CARRY then 1 else 0
  let res := a + b + carry
  if res > 0xFFFFFFFF then
    update_zero_and_neg_flags
      (reg_write (set_flag st FLAG_CARRY) dst ((res &&& 0xFFFFFFFF) &&& 0xFFFFFFFF))
      (res &&& 0xFFFFFFFF)
  else
    update_zero_and_neg_flags (reg_write (clear_flag st FLAG_CARRY) dst (res &&& 0xFFFFFFFF)) res

/-- Dispatch of `CPU.step` on a decoded instruction.  `next_pc = (pc + 4) &
0xFFFFFFFF` is computed first; each branch mutates the state as in the
source; the final `pc = next_pc & 0xFFFFFFFF` assignment is applied to every
non-raising branch. -/
def exec_decoded (st : CPUState) (opcode dst src imm16 : Nat) : Except StepErr CPUState :=
  let next_pc : Int := (st.pc + 4) % 4294967296
  let finish : CPUState → CPUState := fun s => { s with pc := next_pc % 4294967296 }
  if opcode = 0x00 ∨ opcode = 0x53 then .ok (finish st)
  else if opcode = 0x01 then
    let s1 := reg_write st dst (reg_read st src)
    .ok (finish (update_zero_and_neg_flags s1 (reg_read s1 dst)))
  else if opcode = 0x02 then
    let s1 := reg_write st dst ((to_signed16 imm16) % 4294967296).toNat
    .ok (finish (update_zero_and_neg_flags s1 (reg_read s1 dst)))
  else if opcode = 0x03 then
    let addr : Int :=
      if src ≠ 0 ∧ imm16 ≠ 0 then ((reg_read st src : Int) + to_signed16 imm16) % 4294967296
      else if imm16 ≠ 0 then (imm16 : Int)
      else (reg_read st src : Int)
    match read_word st.mem addr with
    | .error e => .error (.memoryError e)
    | .ok v => .ok (finish (update_zero_and_neg_flags (reg_write st dst v) v))
  else if opcode = 0x04 then
    let addr : Int :=
      if dst ≠ 0 ∧ imm16 ≠ 0 then ((reg_read st dst : Int) + to_signed16 imm16) % 4294967296
      else if imm16 ≠ 0 then (imm16 : Int)
      else (reg_read st dst : Int)
    match write_word st.mem addr (reg_read st src) with
    | .error e => .error (.memoryError e)
    | .ok m' => .ok (finish { st with mem := m' })
  else if opcode = 0x05 then
    let p := alu_add st (reg_read st dst) (reg_read st src)
    .ok (finish (reg_write p.1 dst p.2))
  else if opcode = 0x08 then
    let a := reg_read st dst
    let b := reg_read st src
    let s1 :=
      if b = 0 then set_flag (reg_write st dst 0) FLAG_OVERFLOW
      else reg_write st dst ((a / b) &&& 0xFFFFFFFF)
    .ok (finish (update_zero_and_neg_flags s1 (reg_read s1 dst)))
  else if opcode = 0x09 then
    let a := reg_read st dst
    let b := reg_read st src
    let s1 :=
      if b = 0 then set_flag (reg_write st dst 0) FLAG_OVERFLOW
      else reg_write st dst ((a % b) &&& 0xFFFFFFFF)
    .ok (finish (update_zero_and_neg_flags s1 (reg_read s1 dst)))
  else if opcode = 0x1F then .ok (finish { st with halted := true })
  else if opcode = 0x44 then .ok (finish (adc_exec st dst src imm16))
  else .error .unmodelledOpcode

/-- Decode-and-dispatch part of `CPU.step` (everything after the fetch). -/
def exec_instr (st : CPUState) (instr : Nat) : Except StepErr CPUState :=
  match unpack_instruction instr with
  | (opcode, dst, src, imm16) => exec_decoded st opcode dst src imm16

/-- Inner part of `CPU.fetch`: the PC bounds check against the memory size
and the guarded `read_word`, both failure paths forcing `halted = True` and
returning a packed HALT instruction. -/
def fetch_inner (st : CPUState) : CPUState × Nat :=
  if (st.mem.size : Int) < st.pc + 4 ∨ st.pc < 0 then
    ({ st with halted := true }, pack_instruction 0x1F 0 0 0)
  else
    match read_word st.mem st.pc with
    | .ok w => (st, w)
    | .error _ => ({ st with halted := true }, pack_instruction 0x1F 0 0 0)

/-- `CPU.fetch`: optional loaded-program-bounds guard (active only outside
multithreading mode when the attributes are set), then the bounds/read
checks of `fetch_inner`. -/
def fetch (st : CPUState) : CPUState × Nat :=
  match st.program_bounds with
  | some (ps, pe) =>
    if st.multithreading_enabled = false ∧ ¬(ps ≤ st.pc ∧ st.pc < pe) then
      ({ st with halted := true }, pack_instruction 0x1F 0 0 0)
    else fetch_inner st
  | none => fetch_inner st

/-- `CPU.step`: no-op when halted, otherwise fetch then dispatch. -/
def step (st : CPUState) : Except StepErr CPUState :=
  if st.halted then .ok st
  else
    let fw := fetch st
    exec_instr fw.1 fw.2

theorem testBit_lor_flag (f mask k : Nat) :
    (f ||| mask).testBit k = (f.testBit k || mask.testBit k) := Nat.testBit_lor f mask k

theorem testBit_and_not_flag (f mask k : Nat) :
    (f ^^^ (f &&& mask)).testBit k = (f.testBit k && !(mask.testBit k)) := by
  rw [Nat.testBit_xor, Nat.testBit_land]
  cases h : f.testBit k <;> cases hm : mask.testBit k <;> rfl

theorem testBit_small_mask (x k : Nat) (hx : x < 4) (hk : 2 ≤ k) : x.testBit k = false :=
  Nat.testBit_lt_two_pow
    (lt_of_lt_of_le hx (le_trans (by norm_num) (Nat.pow_le_pow_right (by norm_num) hk)))

theorem update_zero_neg_testBit_high (st : CPUState) (val k : Nat) (hk : 2 ≤ k) :
    (update_zero_and_neg_flags st val).eflags.testBit k = st.eflags.testBit k := by
  have h1 : Nat.testBit 1 k = false := testBit_small_mask 1 k (by norm_num) hk
  have h2 : Nat.testBit 2 k = false := testBit_small_mask 2 k (by norm_num) hk
  have hset : ∀ (s : CPUState) (m : Nat), m.testBit k = false →
      (set_flag s m).eflags.testBit k = s.eflags.testBit k := by
    intro s m hm
    rw [set_flag]
    simp only [testBit_lor_flag, hm, Bool.or_false]
  have hclear : ∀ (s : CPUState) (m : Nat),
      (clear_flag s m).eflags.testBit k = (s.eflags.testBit k && !(m.testBit k)) := by
    intro s m
    rw [clear_flag]
    simp only [testBit_and_not_flag]
  simp only [update_zero_and_neg_flags, FLAG_ZERO, FLAG_NEG]
  split <;> split <;> simp only [hset, hclear, h1, h2, Bool.not_false, Bool.and_true]

theorem getD_set_self (l : List Nat) (i v : Nat) (h : i < l.length) :
    (l.set i v).getD i 0 = v := by
  induction l generalizing i with
  | nil => simp at h
  | cons a t ih =>
    cases i with
    | zero => rfl
    | succ n => exact ih n (by simpa using h)

theorem reg_read_write_self (st : CPUState) (idx val : Nat) (h : idx < st.regs.length) :
    reg_read (reg_write st idx val) idx = val &&& 0xFFFFFFFF := by
  unfold reg_read reg_write
  simp only
  rw [getD_set_self _ _ _ h, Nat.and_assoc]
  norm_num

theorem land_u32 (x : Nat) : x &&& 4294967295 = x % 4294967296 :=
  Nat.and_pow_two_sub_one_eq_mod x 32

theorem reg_read_congr (s t : CPUState) (i : Nat) (h : s.regs = t.regs) :
    reg_read s i = reg_read t i := by
  unfold reg_read
  rw [h]

theorem update_zero_neg_proj (st : CPUState) (val : Nat) :
    (update_zero_and_neg_flags st val).regs = st.regs ∧
      (update_zero_and_neg_flags st val).pc = st.pc ∧
      (update_zero_and_neg_flags st val).halted = st.halted ∧
      (update_zero_and_neg_flags st val).mem = st.mem := by
  simp only [update_zero_and_neg_flags, set_flag, clear_flag]
  split <;> split <;> exact ⟨rfl, rfl, rfl, rfl⟩

theorem exec_instr_pack (st : CPUState) (o d s i : Nat) (ho : o < 256) (hd : d < 16)
    (hs : s < 16) (hi : i < 65536) :
    exec_instr st (pack_instruction o d s i) = exec_decoded st o d s i := by
  unfold exec_instr
  rw [unpack_pack o d s i ho hd hs hi]

/-- Result state of the DIV/MOD divide-by-zero branch followed by the final
pc assignment of `CPU.step`. -/
def div_zero_state (st : CPUState) (dst : Nat) : CPUState :=
  { update_zero_and_neg_flags (set_flag (reg_write st dst 0) FLAG_OVERFLOW)
      (reg_read (set_flag (reg_write st dst 0) FLAG_OVERFLOW) dst) with
    pc := ((st.pc + 4) % 4294967296) % 4294967296 }

theorem exec_decoded_div_zero (st : CPUState) (dst src imm : Nat) (hz : reg_read st src = 0) :
    exec_decoded st 0x08 dst src imm = .ok (div_zero_state st dst) := by
  simp only [exec_decoded, hz, div_zero_state]
  norm_num

theorem exec_decoded_mod_zero (st : CPUState) (dst src imm : Nat) (hz : reg_read st src = 0) :
    exec_decoded st 0x09 dst src imm = .ok (div_zero_state st dst) := by
  simp only [exec_decoded, hz, div_zero_state]
  norm_num

theorem div_zero_state_props (st : CPUState) (dst : Nat) (hd : dst < 16)
    (hlen : st.regs.length = 16) :
    reg_read (div_zero_state st dst) dst = 0 ∧
      (div_zero_state st dst).eflags.testBit 3 = true ∧
      (div_zero_state st dst).pc = (st.pc + 4) % 4294967296 ∧
      (div_zero_state st dst).halted = st.halted := by
  have hregs : (div_zero_state st dst).regs = (reg_write st dst 0).regs :=
    (update_zero_neg_proj (set_flag (reg_write st dst 0) FLAG_OVERFLOW) _).1
  refine ⟨?_, ?_, ?_, ?_⟩
  · rw [reg_read_congr _ (reg_write st dst 0) dst hregs,
      reg_read_write_self st dst 0 (by omega)]
    decide
  · show (update_zero_and_neg_flags (set_flag (reg_write st dst 0) FLAG_OVERFLOW)
        (reg_read (set_flag (reg_write st dst 0) FLAG_OVERFLOW) dst)).eflags.testBit 3 = true
    rw [update_zero_neg_testBit_high _ _ 3 (by norm_num)]
    show ((reg_write st dst 0).eflags ||| FLAG_OVERFLOW).testBit 3 = true
    rw [testBit_lor_flag]
    have : Nat.testBit FLAG_OVERFLOW 3 = true := by decide
    rw [this, Bool.or_true]
  · show ((st.pc + 4) % 4294967296) % 4294967296 = (st.pc + 4) % 4294967296
    omega
  · exact (update_zero_neg_proj (set_flag (reg_write st dst 0) FLAG_OVERFLOW) _).2.2.1

/-- C1: executing DIV (and likewise MOD) with the source register equal to 0
raises no error: it writes 0 to the destination register, sets the overflow
flag (bit 3), leaves the halted bit unchanged, and advances the program
counter to the next instruction. -/
theorem C1_div_mod_by_zero (st : CPUState) (dst src imm : Nat) (hd : dst < 16) (hs : src < 16)
    (hi : imm < 65536) (hlen : st.regs.length = 16) (hz : reg_read st src = 0) :
    (∃ st', exec_instr st (pack_instruction 0x08 dst src imm) = .ok st' ∧
        reg_read st' dst = 0 ∧ st'.eflags.testBit 3 = true ∧
        st'.pc = (st.pc + 4) % 4294967296 ∧ st'.halted = st.halted) ∧
    (∃ st', exec_instr st (pack_instruction 0x09 dst src imm) = .ok st' ∧
        reg_read st' dst = 0 ∧ st'.eflags.testBit 3 = true ∧
        st'.pc = (st.pc + 4) % 4294967296 ∧ st'.halted = st.halted) := by
  obtain ⟨p1, p2, p3, p4⟩ := div_zero_state_props st dst hd hlen
  constructor
  · exact ⟨div_zero_state st dst,
      by rw [exec_instr_pack st 0x08 dst src imm (by norm_num) hd hs hi,
        exec_decoded_div_zero st dst src imm hz], p1, p2, p3, p4⟩
  · exact ⟨div_zero_state st dst,
      by rw [exec_instr_pack st 0x09 dst src imm (by norm_num) hd hs hi,
        exec_decoded_mod_zero st dst src imm hz], p1, p2, p3, p4⟩

/-- Witness for C1 at a concrete state with a zero source register. -/
theorem C1_div_mod_by_zero_witness :
    (∃ st', exec_instr ⟨List.replicate 16 0, 0, 0, false, ⟨0, [], [], []⟩, false, none⟩
        (pack_instruction 0x08 0 1 0) = .ok st' ∧ reg_read st' 0 = 0 ∧
        st'.eflags.testBit 3 = true ∧ st'.pc = ((0 : Int) + 4) % 4294967296 ∧
        st'.halted = false) ∧
    (∃ st', exec_instr ⟨List.replicate 16 0, 0, 0, false, ⟨0, [], [], []⟩, false, none⟩
        (pack_instruction 0x09 0 1 0) = .ok st' ∧ reg_read st' 0 = 0 ∧
        st'.eflags.testBit 3 = true ∧ st'.pc = ((0 : Int) + 4) % 4294967296 ∧
        st'.halted = false) :=
  C1_div_mod_by_zero ⟨List.replicate 16 0, 0, 0, false, ⟨0, [], [], []⟩, false, none⟩ 0 1 0
    (by decide) (by decide) (by decide) (by decide) (by decide)

theorem set_flag_testBit_of_ne (st : CPUState) (m k : Nat) (hm : m.testBit k = false) :
    (set_flag st m).eflags.testBit k = st.eflags.testBit k := by
  rw [set_flag]
  simp only [testBit_lor_flag, hm, Bool.or_false]

theorem clear_flag_testBit_of_ne (st : CPUState) (m k : Nat) (hm : m.testBit k = false) :
    (clear_flag st m).eflags.testBit k = st.eflags.testBit k := by
  rw [clear_flag]
  simp only [testBit_and_not_flag, hm, Bool.not_false, Bool.and_true]

theorem alu_add_overflow_bit (st : CPUState) (a b : Nat) :
    ((alu_add st a b).1.eflags.testBit 3 = true ↔
      ((a ^^^ b) &&& 0x80000000 = 0 ∧ (a ^^^ ((a + b) &&& 0xFFFFFFFF)) &&& 0x80000000 ≠ 0)) := by
  unfold alu_add
  simp only
  rw [update_zero_neg_testBit_high _ _ 3 (by norm_num)]
  split
  · case isTrue h =>
    rw [set_flag]
    simp only [testBit_lor_flag]
    have : Nat.testBit FLAG_OVERFLOW 3 = true := by decide
    rw [this, Bool.or_true]
    simpa using h
  · case isFalse h =>
    rw [clear_flag]
    simp only [testBit_and_not_flag]
    have : Nat.testBit FLAG_OVERFLOW 3 = true := by decide
    rw [this]
    simpa using h

theorem reg_write_eflags (st : CPUState) (i v : Nat) : (reg_write st i v).eflags = st.eflags :=
  rfl

theorem set_flag_regs (st : CPUState) (m : Nat) : (set_flag st m).regs = st.regs := rfl

theorem clear_flag_regs (st : CPUState) (m : Nat) : (clear_flag st m).regs = st.regs := rfl

theorem adc_exec_props (st : CPUState) (dst src imm : Nat) (hd : dst < 16)
    (hlen : st.regs.length = 16) :
    (adc_exec st dst src imm).eflags.testBit 3 = st.eflags.testBit 3 ∧
      ((adc_exec st dst src imm).eflags.testBit 2 = true ↔
        4294967295 < reg_read st dst + adc_operand st src imm +
          (if test_flag st FLAG_CARRY then 1 else 0)) ∧
      reg_read (adc_exec st dst src imm) dst =
        (reg_read st dst + adc_operand st src imm +
          (if test_flag st FLAG_CARRY then 1 else 0)) % 4294967296 := by
  have h43 : Nat.testBit FLAG_CARRY 3 = false := by decide
  have h42 : Nat.testBit FLAG_CARRY 2 = true := by decide
  dsimp only [adc_exec]
  generalize (if test_flag st FLAG_CARRY then (1 : Nat) else 0) = cv
  split
  next h =>
    refine ⟨?_, ?_, ?_⟩
    · rw [update_zero_neg_testBit_high _ _ 3 (by norm_num), reg_write_eflags,
        set_flag_testBit_of_ne st FLAG_CARRY 3 h43]
    · rw [update_zero_neg_testBit_high _ _ 2 (by norm_num), reg_write_eflags, set_flag]
      simp only [testBit_lor_flag, h42, Bool.or_true, true_iff]
      exact h
    · rw [reg_read_congr _ _ dst (update_zero_neg_proj _ _).1,
        reg_read_write_self _ dst _ (by simp only [set_flag_regs, hlen]; exact hd),
        land_u32, land_u32, land_u32]
      omega
  next h =>
    refine ⟨?_, ?_, ?_⟩
    · rw [update_zero_neg_testBit_high _ _ 3 (by norm_num), reg_write_eflags,
        clear_flag_testBit_of_ne st FLAG_CARRY 3 h43]
    · rw [update_zero_neg_testBit_high _ _ 2 (by norm_num), reg_write_eflags, clear_flag]
      simp only [testBit_and_not_flag, h42, Bool.not_true, Bool.and_false, Bool.false_eq_true, false_iff]
      omega
    · rw [reg_read_congr _ _ dst (update_zero_neg_proj _ _).1,
        reg_read_write_self _ dst _ (by simp only [clear_flag_regs, hlen]; exact hd),
        land_u32, land_u32]
      omega

theorem exec_decoded_adc (st : CPUState) (dst src imm : Nat) :
    exec_decoded st 0x44 dst src imm =
      .ok { adc_exec st dst src imm with pc := ((st.pc + 4) % 4294967296) % 4294967296 } := by
  simp only [exec_decoded]
  norm_num

theorem exec_decoded_add (st : CPUState) (dst src imm : Nat) :
    exec_decoded st 0x05 dst src imm =
      .ok { reg_write (alu_add st (reg_read st dst) (reg_read st src)).1 dst
              (alu_add st (reg_read st dst) (reg_read st src)).2 with
            pc := ((st.pc + 4) % 4294967296) % 4294967296 } := by
  simp only [exec_decoded]
  norm_num

/-- Counterexample for C6: from flags all clear and both operands
0x40000000 (same sign, signed overflow on addition), ADC leaves the overflow
flag clear, while plain ADD sets it; so ADC does not compute the overflow
flag by the sign-comparison rule. -/
theorem C6_adc_overflow_counterexample :
    (exec_instr ⟨[1073741824, 1073741824, 0, 0, 0, 0, 0, 0, 0, 0, 0, 0, 0, 0, 0, 0], 0, 0,
        false, ⟨0, [], [], []⟩, false, none⟩ (pack_instruction 0x44 0 1 0)).map
        (fun s => s.eflags.testBit 3) = .ok false ∧
      (exec_instr ⟨[1073741824, 1073741824, 0, 0, 0, 0, 0, 0, 0, 0, 0, 0, 0, 0, 0, 0], 0, 0,
        false, ⟨0, [], [], []⟩, false, none⟩ (pack_instruction 0x05 0 1 0)).map
        (fun s => s.eflags.testBit 3) = .ok true ∧
      ((1073741824 ^^^ 1073741824 : Nat) &&& 0x80000000 = 0 ∧
        ((1073741824 : Nat) ^^^ ((1073741824 + 1073741824) &&& 0xFFFFFFFF)) &&& 0x80000000 ≠ 0) :=
  ⟨rfl, rfl, by decide, by decide⟩

/-- C6 amended: ADC updates the carry flag from unsigned overflow and leaves
the overflow flag (bit 3) exactly as it was, while plain ADD computes the
overflow flag by the standard sign-comparison rule. -/
theorem C6_adc_carry_only_add_sign_rule (st : CPUState) (dst src imm : Nat) (hd : dst < 16)
    (hs : src < 16) (hi : imm < 65536) (hlen : st.regs.length = 16) :
    (∃ st', exec_instr st (pack_instruction 0x44 dst src imm) = .ok st' ∧
        st'.eflags.testBit 3 = st.eflags.testBit 3 ∧
        (st'.eflags.testBit 2 = true ↔ 4294967295 < reg_read st dst + adc_operand st src imm +
          (if test_flag st FLAG_CARRY then 1 else 0)) ∧
        reg_read st' dst = (reg_read st dst + adc_operand st src imm +
          (if test_flag st FLAG_CARRY then 1 else 0)) % 4294967296) ∧
    (∃ st', exec_instr st (pack_instruction 0x05 dst src imm) = .ok st' ∧
        (st'.eflags.testBit 3 = true ↔
          ((reg_read st dst ^^^ reg_read st src) &&& 0x80000000 = 0 ∧
            (reg_read st dst ^^^ ((reg_read st dst + reg_read st src) &&& 0xFFFFFFFF)) &&&
              0x80000000 ≠ 0))) := by
  obtain ⟨q1, q2, q3⟩ := adc_exec_props st dst src imm hd hlen
  constructor
  · refine ⟨{ adc_exec st dst src imm with pc := ((st.pc + 4) % 4294967296) % 4294967296 },
      by rw [exec_instr_pack st 0x44 dst src imm (by norm_num) hd hs hi, exec_decoded_adc],
      q1, q2, q3⟩
  · refine ⟨_,
      by rw [exec_instr_pack st 0x05 dst src imm (by norm_num) hd hs hi, exec_decoded_add],
      ?_⟩
    show ((reg_write (alu_add st (reg_read st dst) (reg_read st src)).1 dst
        (alu_add st (reg_read st dst) (reg_read st src)).2).eflags.testBit 3 = true ↔ _)
    rw [show (reg_write (alu_add st (reg_read st dst) (reg_read st src)).1 dst
        (alu_add st (reg_read st dst) (reg_read st src)).2).eflags =
        (alu_add st (reg_read st dst) (reg_read st src)).1.eflags from rfl]
    exact alu_add_overflow_bit st (reg_read st dst) (reg_read st src)

/-- Witness for the amended C6 at a concrete state. -/
theorem C6_adc_carry_only_add_sign_rule_witness :
    (∃ st', exec_instr ⟨List.replicate 16 5, 0, 0, false, ⟨0, [], [], []⟩, false, none⟩
        (pack_instruction 0x44 0 1 0) = .ok st' ∧
        st'.eflags.testBit 3 =
          (⟨List.replicate 16 5, 0, 0, false, ⟨0, [], [], []⟩, false,
            none⟩ : CPUState).eflags.testBit 3 ∧
        (st'.eflags.testBit 2 = true ↔ 4294967295 <
          reg_read ⟨List.replicate 16 5, 0, 0, false, ⟨0, [], [], []⟩, false, none⟩ 0 +
          adc_operand ⟨List.replicate 16 5, 0, 0, false, ⟨0, [], [], []⟩, false, none⟩ 1 0 +
          (if test_flag ⟨List.replicate 16 5, 0, 0, false, ⟨0, [], [], []⟩, false, none⟩
              FLAG_CARRY then 1 else 0)) ∧
        reg_read st' 0 =
          (reg_read ⟨List.replicate 16 5, 0, 0, false, ⟨0, [], [], []⟩, false, none⟩ 0 +
          adc_operand ⟨List.replicate 16 5, 0, 0, false, ⟨0, [], [], []⟩, false, none⟩ 1 0 +
          (if test_flag ⟨List.replicate 16 5, 0, 0, false, ⟨0, [], [], []⟩, false, none⟩
              FLAG_CARRY then 1 else 0)) % 4294967296) ∧
    (∃ st', exec_instr ⟨List.replicate 16 5, 0, 0, false, ⟨0, [], [], []⟩, false, none⟩
        (pack_instruction 0x05 0 1 0) = .ok st' ∧
        (st'.eflags.testBit 3 = true ↔
          ((reg_read ⟨List.replicate 16 5, 0, 0, false, ⟨0, [], [], []⟩, false, none⟩ 0 ^^^
            reg_read ⟨List.replicate 16 5, 0, 0, false, ⟨0, [], [], []⟩, false, none⟩ 1) &&&
              0x80000000 = 0 ∧
            (reg_read ⟨List.replicate 16 5, 0, 0, false, ⟨0, [], [], []⟩, false, none⟩ 0 ^^^
              ((reg_read ⟨List.replicate 16 5, 0, 0, false, ⟨0, [], [], []⟩, false, none⟩ 0 +
                reg_read ⟨List.replicate 16 5, 0, 0, false, ⟨0, [], [], []⟩, false,
                  none⟩ 1) &&& 0xFFFFFFFF)) &&& 0x80000000 ≠ 0))) :=
  C6_adc_carry_only_add_sign_rule
    ⟨List.replicate 16 5, 0, 0, false, ⟨0, [], [], []⟩, false, none⟩ 0 1 0
    (by decide) (by decide) (by decide) (by decide)

theorem to_signed16_mod (imm : Nat) (hi : imm < 65536) :
    ((to_signed16 imm) % 4294967296).toNat =
      if 32768 ≤ imm then imm + 4294901760 else imm := by
  have h16 : imm &&& 65535 = imm := by rw [land_65535, Nat.mod_eq_of_lt hi]
  have h15 : imm &&& 32768 = (imm.testBit 15).toNat * 32768 := by
    have h := Nat.and_two_pow imm 15
    norm_num at h
    exact h
  have hbit : imm.testBit 15 = decide (imm / 32768 % 2 = 1) := by
    have h := Nat.testBit_to_div_mod (x := imm) (i := 15)
    norm_num at h
    exact h
  simp only [to_signed16, h16]
  by_cases hc : 32768 ≤ imm
  · have hne : imm &&& 32768 ≠ 0 := by
      rw [h15, hbit]
      have : imm / 32768 % 2 = 1 := by omega
      simp [this]
    rw [if_pos hne, if_pos hc]
    have he : ((imm : Int) - 65536) % 4294967296 = ((imm + 4294901760 : Nat) : Int) := by
      omega
    rw [he, Int.toNat_natCast]
  · have hne : ¬(imm &&& 32768 ≠ 0) := by
      rw [h15, hbit]
      have : imm / 32768 % 2 = 0 := by omega
      simp [this]
    rw [if_neg hne, if_neg hc]
    have he : ((imm : Nat) : Int) % 4294967296 = ((imm : Nat) : Int) := by omega
    rw [he, Int.toNat_natCast]

/-- Result state of the LOADI branch followed by the final pc assignment. -/
def loadi_state (st : CPUState) (dst imm : Nat) : CPUState :=
  { update_zero_and_neg_flags (reg_write st dst ((to_signed16 imm) % 4294967296).toNat)
      (reg_read (reg_write st dst ((to_signed16 imm) % 4294967296).toNat) dst) with
    pc := ((st.pc + 4) % 4294967296) % 4294967296 }

theorem exec_decoded_loadi (st : CPUState) (dst src imm : Nat) :
    exec_decoded st 0x02 dst src imm = .ok (loadi_state st dst imm) := by
  simp only [exec_decoded, loadi_state]
  norm_num

theorem exec_decoded_load_zero_src (st : CPUState) (dst imm : Nat) (hnz : imm ≠ 0) (v : Nat)
    (hv : read_word st.mem (imm : Int) = .ok v) :
    exec_decoded st 0x03 dst 0 imm =
      .ok { update_zero_and_neg_flags (reg_write st dst v) v with
            pc := ((st.pc + 4) % 4294967296) % 4294967296 } := by
  simp only [exec_decoded]
  norm_num [hnz, hv]

theorem exec_decoded_store_zero_dst (st : CPUState) (src imm : Nat) (hnz : imm ≠ 0) (m' : Mem)
    (hm : write_word st.mem (imm : Int) (reg_read st src) = .ok m') :
    exec_decoded st 0x04 0 src imm =
      .ok { st with mem := m', pc := ((st.pc + 4) % 4294967296) % 4294967296 } := by
  simp only [exec_decoded]
  norm_num [hnz, hm]

/-- Counterexample for C8: with a zero src field and a zero immediate, the
executed LOAD takes its address from register 0 (here 8, reading the word 99
stored there), not from the raw immediate 0, where the word 7 is stored; the
claim's "uses the raw unsigned 16-bit immediate directly as the memory
address" fails at imm16 = 0. -/
theorem C8_load_zero_imm_counterexample :
    (exec_instr ⟨[8, 0, 0, 0, 0, 0, 0, 0, 0, 0, 0, 0, 0, 0, 0, 0], 0, 0, false,
        ⟨16, [7, 0, 0, 0, 0, 0, 0, 0, 99, 0, 0, 0, 0, 0, 0, 0], [], []⟩, false, none⟩
        (pack_instruction 0x03 1 0 0)).map (fun s => reg_read s 1) = .ok 99 ∧
      read_word (⟨16, [7, 0, 0, 0, 0, 0, 0, 0, 99, 0, 0, 0, 0, 0, 0, 0], [], []⟩ : Mem) 0 =
        .ok 7 ∧
      reg_read ⟨[8, 0, 0, 0, 0, 0, 0, 0, 0, 0, 0, 0, 0, 0, 0, 0], 0, 0, false,
        ⟨16, [7, 0, 0, 0, 0, 0, 0, 0, 99, 0, 0, 0, 0, 0, 0, 0], [], []⟩, false, none⟩ 0 = 8 :=
  ⟨rfl, rfl, rfl⟩

/-- C8 amended: LOADI writes the sign-extended immediate; LOAD with a zero
src field and a *nonzero* immediate reads the raw unsigned immediate as the
address, and STORE with a zero base field and a nonzero immediate writes to
the raw unsigned immediate (when both the src/base field and the immediate
are zero, the address is taken from register 0 instead). -/
theorem C8_imm_asymmetry (st : CPUState) (dst src imm : Nat) (hd : dst < 16)
    (hs : src < 16) (hi : imm < 65536) (hlen : st.regs.length = 16) :
    (∃ st', exec_instr st (pack_instruction 0x02 dst src imm) = .ok st' ∧
        reg_read st' dst = (if 32768 ≤ imm then imm + 4294901760 else imm)) ∧
    (imm ≠ 0 → ∀ v, read_word st.mem (imm : Int) = .ok v →
      ∃ st', exec_instr st (pack_instruction 0x03 dst 0 imm) = .ok st' ∧
        reg_read st' dst = v &&& 0xFFFFFFFF) ∧
    (imm ≠ 0 → ∀ m', write_word st.mem (imm : Int) (reg_read st src) = .ok m' →
      ∃ st', exec_instr st (pack_instruction 0x04 0 src imm) = .ok st' ∧ st'.mem = m') := by
  refine ⟨?_, ?_, ?_⟩
  · refine ⟨loadi_state st dst imm,
      by rw [exec_instr_pack st 0x02 dst src imm (by norm_num) hd hs hi, exec_decoded_loadi],
      ?_⟩
    have hregs : (loadi_state st dst imm).regs =
        (reg_write st dst ((to_signed16 imm) % 4294967296).toNat).regs :=
      (update_zero_neg_proj _ _).1
    rw [reg_read_congr _ _ dst hregs, reg_read_write_self st dst _ (by omega), land_u32,
      to_signed16_mod imm hi]
    split <;> omega
  · intro hnz v hv
    refine ⟨_, by rw [exec_instr_pack st 0x03 dst 0 imm (by norm_num) hd (by norm_num) hi,
      exec_decoded_load_zero_src st dst imm hnz v hv], ?_⟩
    show reg_read (update_zero_and_neg_flags (reg_write st dst v) v) dst = v &&& 0xFFFFFFFF
    rw [reg_read_congr _ _ dst (update_zero_neg_proj (reg_write st dst v) v).1,
      reg_read_write_self st dst v (by omega)]
  · intro hnz m' hm
    exact ⟨_, by rw [exec_instr_pack st 0x04 0 src imm (by norm_num) (by norm_num) hs hi,
      exec_decoded_store_zero_dst st src imm hnz m' hm], rfl⟩

/-- Witness for the amended C8, with a memory holding 7 at address 0 and 99
at addresses 4 and 8. -/
theorem C8_imm_asymmetry_witness :
    (∃ st', exec_instr ⟨[8, 0, 0, 0, 0, 0, 0, 0, 0, 0, 0, 0, 0, 0, 0, 0], 0, 0, false,
        ⟨16, [7, 0, 0, 0, 99, 0, 0, 0, 99, 0, 0, 0, 0, 0, 0, 0], [], []⟩, false, none⟩
        (pack_instruction 0x02 1 2 4) = .ok st' ∧
        reg_read st' 1 = (if 32768 ≤ 4 then 4 + 4294901760 else 4)) ∧
    ((4 : Nat) ≠ 0 → ∀ v, read_word (⟨16, [7, 0, 0, 0, 99, 0, 0, 0, 99, 0, 0, 0, 0, 0, 0, 0],
        [], []⟩ : Mem) ((4 : Nat) : Int) = .ok v →
      ∃ st', exec_instr ⟨[8, 0, 0, 0, 0, 0, 0, 0, 0, 0, 0, 0, 0, 0, 0, 0], 0, 0, false,
        ⟨16, [7, 0, 0, 0, 99, 0, 0, 0, 99, 0, 0, 0, 0, 0, 0, 0], [], []⟩, false, none⟩
        (pack_instruction 0x03 1 0 4) = .ok st' ∧ reg_read st' 1 = v &&& 0xFFFFFFFF) ∧
    ((4 : Nat) ≠ 0 → ∀ m', write_word (⟨16, [7, 0, 0, 0, 99, 0, 0, 0, 99, 0, 0, 0, 0, 0, 0, 0],
        [], []⟩ : Mem) ((4 : Nat) : Int)
        (reg_read ⟨[8, 0, 0, 0, 0, 0, 0, 0, 0, 0, 0, 0, 0, 0, 0, 0], 0, 0, false,
          ⟨16, [7, 0, 0, 0, 99, 0, 0, 0, 99, 0, 0, 0, 0, 0, 0, 0], [], []⟩, false, none⟩ 2) =
          .ok m' →
      ∃ st', exec_instr ⟨[8, 0, 0, 0, 0, 0, 0, 0, 0, 0, 0, 0, 0, 0, 0, 0], 0, 0, false,
        ⟨16, [7, 0, 0, 0, 99, 0, 0, 0, 99, 0, 0, 0, 0, 0, 0, 0], [], []⟩, false, none⟩
        (pack_instruction 0x04 0 2 4) = .ok st' ∧ st'.mem = m') :=
  C8_imm_asymmetry ⟨[8, 0, 0, 0, 0, 0, 0, 0, 0, 0, 0, 0, 0, 0, 0, 0], 0, 0, false,
    ⟨16, [7, 0, 0, 0, 99, 0, 0, 0, 99, 0, 0, 0, 0, 0, 0, 0], [], []⟩, false, none⟩ 1 2 4
    (by decide) (by decide) (by decide) (by decide)

theorem fetch_inner_fail_halts (st : CPUState)
    (hfail : st.pc < 0 ∨ (st.mem.size : Int) < st.pc + 4 ∨
      ∃ e, read_word st.mem st.pc = .error e) :
    fetch_inner st = ({ st with halted := true }, pack_instruction 0x1F 0 0 0) := by
  unfold fetch_inner
  by_cases h : (st.mem.size : Int) < st.pc + 4 ∨ st.pc < 0
  · rw [if_pos h]
  · rw [if_neg h]
    rcases hfail with h1 | h2 | ⟨e, he⟩
    · omega
    · omega
    · rw [he]

theorem fetch_fail_eq (st : CPUState)
    (hfail : st.pc < 0 ∨ (st.mem.size : Int) < st.pc + 4 ∨
      ∃ e, read_word st.mem st.pc = .error e) :
    fetch st = ({ st with halted := true }, pack_instruction 0x1F 0 0 0) := by
  unfold fetch
  cases hpb : st.program_bounds with
  | none =>
    have h := fetch_inner_fail_halts st hfail
    rw [hpb] at h
    exact h
  | some b =>
    obtain ⟨ps, pe⟩ := b
    dsimp only
    by_cases hc : st.multithreading_enabled = false ∧ ¬(ps ≤ st.pc ∧ st.pc < pe)
    · rw [if_pos hc]
    · rw [if_neg hc]
      have h := fetch_inner_fail_halts st hfail
      rw [hpb] at h
      exact h

theorem exec_instr_halt (st : CPUState) :
    exec_instr st (pack_instruction 0x1F 0 0 0) =
      .ok { st with halted := true, pc := ((st.pc + 4) % 4294967296) % 4294967296 } := by
  rw [exec_instr_pack st 0x1F 0 0 0 (by norm_num) (by norm_num) (by norm_num) (by norm_num)]
  simp only [exec_decoded]
  norm_num

/-- C9: when the fetch fails (pc negative, pc + 4 beyond the memory size, or
the word read raising a memory error), `CPU.fetch` does not propagate the
failure: it sets halted, hands back a packed HALT instruction, and preserves
the register file, the flags and the pc; the surrounding `step` completes
without an escaping error and ends in a halted state with registers and
flags preserved. -/
theorem C9_fetch_failure_forces_halt (st : CPUState)
    (hfail : st.pc < 0 ∨ (st.mem.size : Int) < st.pc + 4 ∨
      ∃ e, read_word st.mem st.pc = .error e) :
    (fetch st).1.halted = true ∧ (fetch st).2 = pack_instruction 0x1F 0 0 0 ∧
      (fetch st).1.regs = st.regs ∧ (fetch st).1.eflags = st.eflags ∧
      (fetch st).1.pc = st.pc ∧
      ∃ st', step st = .ok st' ∧ st'.halted = true ∧ st'.regs = st.regs ∧
        st'.eflags = st.eflags := by
  have hf := fetch_fail_eq st hfail
  rw [hf]
  refine ⟨rfl, rfl, rfl, rfl, rfl, ?_⟩
  unfold step
  by_cases hh : st.halted = true
  · rw [if_pos hh]
    exact ⟨st, rfl, hh, rfl, rfl⟩
  · rw [if_neg hh]
    simp only [hf]
    rw [exec_instr_halt]
    exact ⟨_, rfl, rfl, rfl, rfl⟩

/-- Witness for C9 at a state whose pc is negative. -/
theorem C9_fetch_failure_forces_halt_witness :
    (fetch ⟨List.replicate 16 0, 0, -4, false, ⟨8, [1, 2, 3, 4, 5, 6, 7, 8], [], []⟩, false,
        none⟩).1.halted = true ∧
      (fetch ⟨List.replicate 16 0, 0, -4, false, ⟨8, [1, 2, 3, 4, 5, 6, 7, 8], [], []⟩, false,
        none⟩).2 = pack_instruction 0x1F 0 0 0 ∧
      (fetch ⟨List.replicate 16 0, 0, -4, false, ⟨8, [1, 2, 3, 4, 5, 6, 7, 8], [], []⟩, false,
        none⟩).1.regs = List.replicate 16 0 ∧
      (fetch ⟨List.replicate 16 0, 0, -4, false, ⟨8, [1, 2, 3, 4, 5, 6, 7, 8], [], []⟩, false,
        none⟩).1.eflags = 0 ∧
      (fetch ⟨List.replicate 16 0, 0, -4, false, ⟨8, [1, 2, 3, 4, 5, 6, 7, 8], [], []⟩, false,
        none⟩).1.pc = -4 ∧
      ∃ st', step ⟨List.replicate 16 0, 0, -4, false, ⟨8, [1, 2, 3, 4, 5, 6, 7, 8], [], []⟩,
        false, none⟩ = .ok st' ∧ st'.halted = true ∧ st'.regs = List.replicate 16 0 ∧
        st'.eflags = 0 :=
  C9_fetch_failure_forces_halt ⟨List.replicate 16 0, 0, -4, false,
    ⟨8, [1, 2, 3, 4, 5, 6, 7, 8], [], []⟩, false, none⟩ (Or.inl (by decide))

/-! Scheduler.  A `Thread` record keeps the scheduling-relevant fields (tid,
pc, state, priority, wake deadline); the saved register/flag/sp snapshot
written by `save_context` does not influence any scheduling decision and is
elided.  Wall-clock time (`time.time()`) is passed in explicitly as `now`.
The thread dictionary is a key-ordered association list; `create_thread`
always inserts a fresh key (`next_tid` strictly dominates every existing
key), matching Python dict insertion. -/

inductive TState where
  | ready
  | running
  | blocked
  | terminated
  deriving DecidableEq, Repr

structure ThreadR where
  tid : Nat
  pc : Nat
  state : TState
  priority : Nat
  blocked_until : Nat
  deriving DecidableEq, Repr

structure Sched where
  threads : List (Nat × ThreadR)
  ready_queue : List Nat
  current_thread : Option Nat
  next_tid : Nat
  deriving DecidableEq, Repr

/-- `Scheduler.__init__`: empty thread table, empty ready queue, no current
thread, ids start at 1. -/
def initSched : Sched := ⟨[], [], none, 1⟩

/-- `self.threads.get(tid)`. -/
def lookupThread (l : List (Nat × ThreadR)) (tid : Nat) : Option ThreadR :=
  match l.find? (fun e => e.1 == tid) with
  | some e => some e.2
  | none => none

/-- In-place mutation of the thread object stored under a key (Python mutates
the record through the dict reference, keys and order unchanged). -/
def updateThread (l : List (Nat × ThreadR)) (tid : Nat) (f : ThreadR → ThreadR) :
    List (Nat × ThreadR) :=
  l.map (fun e => if e.1 = tid then (e.1, f e.2) else e)

/-- `Scheduler.create_thread`: fresh tid, a ready thread record, appended to
the table and to the ready queue. -/
def create_thread (s : Sched) (pc : Nat) (priority : Nat := 5) : Sched × Nat :=
  let tid := s.next_tid
  let t : ThreadR := ⟨tid, pc, .ready, priority, 0⟩
  ({ s with next_tid := tid + 1, threads := s.threads ++ [(tid, t)],
            ready_queue := s.ready_queue ++ [tid] }, tid)

/-- Tail-recursive form of the popleft-and-retry recursion of
`Scheduler.schedule_next`: pop entries until one names a thread in state
"ready"; return the remaining queue and that tid, or none when the queue is
exhausted. -/
def schedule_loop (threads : List (Nat × ThreadR)) : List Nat → Option (List Nat × Nat)
  | [] => none
  | tid :: rest =>
    match lookupThread threads tid with
    | some t => if t.state = .ready then some (rest, tid) else schedule_loop threads rest
    | none => schedule_loop threads rest

/-- `Scheduler.schedule_next`: pop the ready queue until a ready thread is
found; mark it running and make it current.  The skipped (and, on failure,
all) queue entries stay popped, and the previously running thread's state is
left untouched. -/
def schedule_next (s : Sched) : Sched × Option Nat :=
  match schedule_loop s.threads s.ready_queue with
  | none => ({ s with ready_queue := [] }, none)
  | some (rest, tid) =>
    ({ s with ready_queue := rest,
              threads := updateThread s.threads tid (fun t => { t with state := .running }),
              current_thread := some tid }, some tid)

/-- `Scheduler.yield_thread`: no-op without a current thread; otherwise mark
it ready, append it to the ready queue, clear the current pointer. -/
def yield_thread (s : Sched) : Sched :=
  match s.current_thread with
  | none => s
  | some tid =>
    { s with threads := updateThread s.threads tid (fun t => { t with state := .ready }),
             ready_queue := s.ready_queue ++ [tid],
             current_thread := none }

/-- `Scheduler.block_thread`: mark the current thread blocked with an
absolute wake deadline, clear the current pointer. -/
def block_thread (s : Sched) (now duration : Nat) : Sched :=
  match s.current_thread with
  | none => s
  | some tid =>
    { s with
      threads := updateThread s.threads tid
                  (fun t => { t with state := .blocked, blocked_until := now + duration }),
      current_thread := none }

/-- `Scheduler.unblock_threads`: every blocked thread whose deadline has
passed becomes ready and is appended to the ready queue (table order). -/
def unblock_threads (s : Sched) (now : Nat) : Sched :=
  { s with
    threads := s.threads.map (fun e =>
      if e.2.state = .blocked ∧ e.2.blocked_until ≤ now then
        (e.1, { e.2 with state := TState.ready })
      else e),
    ready_queue := s.ready_queue ++
      (s.threads.filter
        (fun e => decide (e.2.state = .blocked ∧ e.2.blocked_until ≤ now))).map Prod.fst }

/-- `Scheduler.terminate_thread`: mark the thread terminated (it stays in the
table) and clear the current pointer when it was the current thread. -/
def terminate_thread (s : Sched) (tid : Nat) : Sched :=
  if (lookupThread s.threads tid).isSome then
    let s1 := { s with
      threads := updateThread s.threads tid (fun t => { t with state := .terminated }) }
    match s1.current_thread with
    | some c => if c = tid then { s1 with current_thread := none } else s1
    | none => s1
  else s

/-- The scheduler operations named by the claim. -/
inductive SOp where
  | create (pc priority : Nat)
  | schedNext
  | yieldCur
  | block (now duration : Nat)
  | unblock (now : Nat)
  | term (tid : Nat)
  deriving DecidableEq, Repr

def applyOp (s : Sched) : SOp → Sched
  | .create pc pr => (create_thread s pc pr).1
  | .schedNext => (schedule_next s).1
  | .yieldCur => yield_thread s
  | .block now dur => block_thread s now dur
  | .unblock now => unblock_threads s now
  | .term tid => terminate_thread s tid

/-- States reachable from the initial scheduler by arbitrary operation
sequences (the quantification of the claim as stated). -/
inductive ReachableAny : Sched → Prop where
  | init : ReachableAny initSched
  | step (s : Sched) (op : SOp) : ReachableAny s → ReachableAny (applyOp s op)

/-- States reachable when `schedule_next` is only invoked while no thread is
current — the discipline the driving run loop observes (it dispatches only
after a yield/block/termination has cleared the current pointer). -/
inductive ReachableDisciplined : Sched → Prop where
  | init : ReachableDisciplined initSched
  | step (s : Sched) (op : SOp) : ReachableDisciplined s →
      (op = .schedNext → s.current_thread = none) → ReachableDisciplined (applyOp s op)

/-- Number of table entries in state "running". -/
def countRunning (s : Sched) : Nat :=
  (s.threads.filter (fun e => e.2.state == TState.running)).length

/-- No table entry is running. -/
def noRunning (s : Sched) : Prop := ∀ e ∈ s.threads, e.2.state ≠ TState.running

/-- Every running table entry is keyed by `c`. -/
def runningOnly (s : Sched) (c : Nat) : Prop :=
  ∀ e ∈ s.threads, e.2.state = TState.running → e.1 = c

/-- Relation between the current pointer and the running entries. -/
def curOK (s : Sched) : Prop :=
  match s.current_thread with
  | none => noRunning s
  | some c => runningOnly s c

/-- Inductive invariant: keys are distinct and bounded by `next_tid`, and the
running entries are governed by the current pointer. -/
def SchedInv (s : Sched) : Prop :=
  (s.threads.map Prod.fst).Nodup ∧ (∀ e ∈ s.threads, e.1 < s.next_tid) ∧ curOK s

theorem curOK_none (s : Sched) (h : s.current_thread = none) (hn : noRunning s) : curOK s := by
  unfold curOK
  rw [h]
  exact hn

theorem curOK_some (s : Sched) (c : Nat) (h : s.current_thread = some c)
    (hr : runningOnly s c) : curOK s := by
  unfold curOK
  rw [h]
  exact hr

theorem curOK_elim_none (s : Sched) (h : s.current_thread = none) (hc : curOK s) :
    noRunning s := by
  unfold curOK at hc
  rw [h] at hc
  exact hc

theorem curOK_elim_some (s : Sched) (c : Nat) (h : s.current_thread = some c) (hc : curOK s) :
    runningOnly s c := by
  unfold curOK at hc
  rw [h] at hc
  exact hc

theorem SchedInv_mk (thr : List (Nat × ThreadR)) (q : List Nat) (cur : Option Nat) (n : Nat)
    (h1 : (thr.map Prod.fst).Nodup) (h2 : ∀ e ∈ thr, e.1 < n)
    (h3 : match cur with
          | none => ∀ e ∈ thr, e.2.state ≠ TState.running
          | some c => ∀ e ∈ thr, e.2.state = TState.running → e.1 = c) :
    SchedInv ⟨thr, q, cur, n⟩ := by
  refine ⟨h1, h2, ?_⟩
  cases cur with
  | none => exact fun e he => h3 e he
  | some c => exact fun e he hr => h3 e he hr

theorem updateThread_keys (l : List (Nat × ThreadR)) (tid : Nat) (f : ThreadR → ThreadR) :
    (updateThread l tid f).map Prod.fst = l.map Prod.fst := by
  unfold updateThread
  rw [List.map_map]
  apply List.map_congr_left
  intro e _
  by_cases h : e.1 = tid <;> simp [h]

theorem mem_updateThread (l : List (Nat × ThreadR)) (tid : Nat) (f : ThreadR → ThreadR)
    (e : Nat × ThreadR) (he : e ∈ updateThread l tid f) :
    (∃ v, (tid, v) ∈ l ∧ e = (tid, f v)) ∨ (e ∈ l ∧ e.1 ≠ tid) := by
  unfold updateThread at he
  obtain ⟨a, ha, hae⟩ := List.mem_map.mp he
  by_cases h : a.1 = tid
  · subst h
    rw [if_pos rfl] at hae
    exact Or.inl ⟨a.2, by simpa using ha, hae.symm⟩
  · rw [if_neg h] at hae
    subst hae
    exact Or.inr ⟨ha, h⟩

theorem nodup_updateThread (l : List (Nat × ThreadR)) (tid : Nat) (f : ThreadR → ThreadR)
    (h : (l.map Prod.fst).Nodup) : ((updateThread l tid f).map Prod.fst).Nodup := by
  rw [updateThread_keys]
  exact h

theorem bound_updateThread (l : List (Nat × ThreadR)) (tid : Nat) (f : ThreadR → ThreadR)
    (n : Nat) (h : ∀ e ∈ l, e.1 < n) : ∀ e ∈ updateThread l tid f, e.1 < n := by
  intro e he
  rcases mem_updateThread l tid f e he with ⟨v, hv, he'⟩ | ⟨he', _⟩
  · subst he'
    exact h (tid, v) hv
  · exact h e he'

theorem count_le_one_of_key (l : List (Nat × ThreadR)) (c : Nat)
    (hnd : (l.map Prod.fst).Nodup)
    (hall : ∀ e ∈ l, e.2.state = TState.running → e.1 = c) :
    (l.filter (fun e => e.2.state == TState.running)).length ≤ 1 := by
  induction l with
  | nil => simp
  | cons e t ih =>
    simp only [List.map_cons, List.nodup_cons] at hnd
    by_cases hr : (e.2.state == TState.running) = true
    · rw [List.filter_cons, if_pos hr]
      have hkey : e.1 = c := hall e (List.mem_cons_self e t) (by simpa using hr)
      have hnone : t.filter (fun e => e.2.state == TState.running) = [] := by
        rw [List.filter_eq_nil_iff]
        intro a ha hra
        have hac : a.1 = c := hall a (List.mem_cons_of_mem e ha) (by simpa using hra)
        have hea : e.1 = a.1 := by omega
        exact hnd.1 (by rw [hea]; exact List.mem_map_of_mem Prod.fst ha)
      rw [hnone]
      simp
    · rw [List.filter_cons, if_neg hr]
      exact ih hnd.2 (fun a ha => hall a (List.mem_cons_of_mem e ha))

theorem inv_countRunning (s : Sched) (h : SchedInv s) : countRunning s ≤ 1 := by
  obtain ⟨hnd, _, hcur⟩ := h
  unfold countRunning
  cases hc : s.current_thread with
  | none =>
    have hrun := curOK_elim_none s hc hcur
    have he : s.threads.filter (fun e => e.2.state == TState.running) = [] := by
      rw [List.filter_eq_nil_iff]
      intro a ha hra
      exact hrun a ha (by simpa using hra)
    rw [he]
    simp
  | some c =>
    exact count_le_one_of_key s.threads c hnd (curOK_elim_some s c hc hcur)

theorem SchedInv_init : SchedInv initSched := by
  refine ⟨by simp [initSched], by simp [initSched], ?_⟩
  apply curOK_none _ rfl
  intro e he
  cases he

theorem SchedInv_applyOp (s : Sched) (op : SOp) (hinv : SchedInv s)
    (hsched : op = .schedNext → s.current_thread = none) : SchedInv (applyOp s op) := by
  obtain ⟨hnd, hbound, hcur⟩ := hinv
  cases op with
  | create pc pr =>
    show SchedInv (create_thread s pc pr).1
    unfold create_thread
    dsimp only
    refine ⟨?_, ?_, ?_⟩
    · rw [List.map_append, List.nodup_append]
      refine ⟨hnd, by simp, ?_⟩
      intro a ha hb
      simp only [List.map_cons, List.map_nil, List.mem_singleton] at hb
      obtain ⟨e, he, hfst⟩ := List.mem_map.mp ha
      have := hbound e he
      omega
    · intro e he
      rcases List.mem_append.mp he with h | h
      · have := hbound e h
        simp only
        omega
      · simp only [List.mem_singleton] at h
        subst h
        simp
    · cases hc : s.current_thread with
      | none =>
        apply curOK_none _ rfl
        intro e he
        rcases List.mem_append.mp (by exact he) with h | h
        · exact curOK_elim_none s hc hcur e h
        · simp only [List.mem_singleton] at h
          subst h
          simp
      | some c =>
        apply curOK_some _ c rfl
        intro e he hr
        rcases List.mem_append.mp (by exact he) with h | h
        · exact curOK_elim_some s c hc hcur e h hr
        · simp only [List.mem_singleton] at h
          subst h
          simp at hr
  | schedNext =>
    have hc := hsched rfl
    have hrun := curOK_elim_none s hc hcur
    show SchedInv (schedule_next s).1
    unfold schedule_next
    cases hl : schedule_loop s.threads s.ready_queue with
    | none =>
      dsimp only
      refine ⟨hnd, hbound, ?_⟩
      apply curOK_none _ hc
      exact hrun
    | some p =>
      obtain ⟨rest, tid⟩ := p
      dsimp only
      apply SchedInv_mk
      · exact nodup_updateThread _ _ _ hnd
      · exact bound_updateThread _ _ _ _ hbound
      intro e he hr
      rcases mem_updateThread _ _ _ e he with ⟨v, hv, he'⟩ | ⟨he', hne⟩
      · subst he'
        rfl
      · exact absurd hr (hrun e he')
  | yieldCur =>
    show SchedInv (yield_thread s)
    unfold yield_thread
    cases hc : s.current_thread with
    | none => exact ⟨hnd, hbound, hcur⟩
    | some c =>
      have hrun := curOK_elim_some s c hc hcur
      dsimp only
      apply SchedInv_mk
      · exact nodup_updateThread _ _ _ hnd
      · exact bound_updateThread _ _ _ _ hbound
      intro e he
      rcases mem_updateThread _ _ _ e he with ⟨v, hv, he'⟩ | ⟨he', hne⟩
      · subst he'
        simp
      · intro hr
        exact hne (hrun e he' hr)
  | block now dur =>
    show SchedInv (block_thread s now dur)
    unfold block_thread
    cases hc : s.current_thread with
    | none => exact ⟨hnd, hbound, hcur⟩
    | some c =>
      have hrun := curOK_elim_some s c hc hcur
      dsimp only
      apply SchedInv_mk
      · exact nodup_updateThread _ _ _ hnd
      · exact bound_updateThread _ _ _ _ hbound
      intro e he
      rcases mem_updateThread _ _ _ e he with ⟨v, hv, he'⟩ | ⟨he', hne⟩
      · subst he'
        simp
      · intro hr
        exact hne (hrun e he' hr)
  | unblock now =>
    show SchedInv (unblock_threads s now)
    have hmem : ∀ e ∈ (unblock_threads s now).threads,
        ∃ a ∈ s.threads, e.1 = a.1 ∧ (e.2.state = a.2.state ∨ e.2.state = TState.ready) := by
      intro e he
      obtain ⟨a, ha, hae⟩ := List.mem_map.mp he
      by_cases h : a.2.state = TState.blocked ∧ a.2.blocked_until ≤ now
      · rw [if_pos h] at hae
        subst hae
        exact ⟨a, ha, rfl, Or.inr rfl⟩
      · rw [if_neg h] at hae
        subst hae
        exact ⟨a, ha, rfl, Or.inl rfl⟩
    have hkeys : (unblock_threads s now).threads.map Prod.fst = s.threads.map Prod.fst := by
      show (s.threads.map _).map Prod.fst = _
      rw [List.map_map]
      apply List.map_congr_left
      intro e _
      by_cases h : e.2.state = TState.blocked ∧ e.2.blocked_until ≤ now <;> simp [h]
    refine ⟨by rw [hkeys]; exact hnd, ?_, ?_⟩
    · intro e he
      obtain ⟨a, ha, hfst, _⟩ := hmem e he
      have := hbound a ha
      show e.1 < s.next_tid
      omega
    · cases hc : s.current_thread with
      | none =>
        have hrun := curOK_elim_none s hc hcur
        apply curOK_none _ (show (unblock_threads s now).current_thread = none from hc)
        intro e he hr
        obtain ⟨a, ha, _, hst⟩ := hmem e he
        rcases hst with h | h
        · exact hrun a ha (by rw [← h]; exact hr)
        · rw [h] at hr
          cases hr
      | some c =>
        have hrun := curOK_elim_some s c hc hcur
        apply curOK_some _ c (show (unblock_threads s now).current_thread = some c from hc)
        intro e he hr
        obtain ⟨a, ha, hfst, hst⟩ := hmem e he
        rcases hst with h | h
        · rw [hfst]
          exact hrun a ha (by rw [← h]; exact hr)
        · rw [h] at hr
          cases hr
  | term tid =>
    show SchedInv (terminate_thread s tid)
    unfold terminate_thread
    by_cases hpresent : (lookupThread s.threads tid).isSome
    · rw [if_pos hpresent]
      cases hc : s.current_thread with
      | none =>
        have hrun := curOK_elim_none s hc hcur
        dsimp only
        apply SchedInv_mk
        · exact nodup_updateThread _ _ _ hnd
        · exact bound_updateThread _ _ _ _ hbound
        intro e he hr
        rcases mem_updateThread _ _ _ e he with ⟨v, hv, he'⟩ | ⟨he', hne⟩
        · subst he'
          simp at hr
        · exact hrun e he' hr
      | some c =>
        have hrun := curOK_elim_some s c hc hcur
        dsimp only
        by_cases hcid : c = tid
        · rw [if_pos hcid]
          apply SchedInv_mk
          · exact nodup_updateThread _ _ _ hnd
          · exact bound_updateThread _ _ _ _ hbound
          intro e he hr
          rcases mem_updateThread _ _ _ e he with ⟨v, hv, he'⟩ | ⟨he', hne⟩
          · subst he'
            simp at hr
          · exact hne (by rw [← hcid]; exact hrun e he' hr)
        · rw [if_neg hcid]
          apply SchedInv_mk
          · exact nodup_updateThread _ _ _ hnd
          · exact bound_updateThread _ _ _ _ hbound
          intro e he hr
          rcases mem_updateThread _ _ _ e he with ⟨v, hv, he'⟩ | ⟨he', hne⟩
          · subst he'
            simp at hr
          · exact hrun e he' hr
    · rw [if_neg hpresent]
      exact ⟨hnd, hbound, hcur⟩

/-- Counterexample for C7: the four-operation sequence create, create,
schedule_next, schedule_next is a legal operation sequence from the initial
state and leaves two table entries in state "running", because
`schedule_next` never demotes the previously running thread. -/
theorem C7_two_running_counterexample :
    ReachableAny (applyOp (applyOp (applyOp (applyOp initSched (.create 0 5)) (.create 0 5))
        .schedNext) .schedNext) ∧
      countRunning (applyOp (applyOp (applyOp (applyOp initSched (.create 0 5)) (.create 0 5))
        .schedNext) .schedNext) = 2 :=
  ⟨.step _ .schedNext (.step _ .schedNext (.step _ (.create 0 5)
      (.step _ (.create 0 5) .init))), by decide⟩

/-- C7 amended: in every scheduler state reachable from the initial state by
create_thread, schedule_next, yield_thread, block_thread, unblock_threads and
terminate_thread, with schedule_next invoked only while no thread is current
(as the driving loop does), at most one thread is in state "running". -/
theorem C7_at_most_one_running (s : Sched) (h : ReachableDisciplined s) :
    countRunning s ≤ 1 := by
  have hinv : SchedInv s := by
    induction h with
    | init => exact SchedInv_init
    | step s' op _ hguard ih => exact SchedInv_applyOp s' op ih hguard
  exact inv_countRunning s hinv

/-- Witness for the amended C7: the disciplined sequence create, create,
schedule_next, yield, schedule_next ends with one running thread. -/
theorem C7_at_most_one_running_witness :
    countRunning (applyOp (applyOp (applyOp (applyOp (applyOp initSched (.create 0 5))
      (.create 0 5)) .schedNext) .yieldCur) .schedNext) ≤ 1 :=
  C7_at_most_one_running _
    (.step _ .schedNext
      (.step _ .yieldCur
        (.step _ .schedNext
          (.step _ (.create 0 5)
            (.step _ (.create 0 5) .init (by intro h; cases h))
            (by intro h; cases h))
          (by intro _; rfl))
        (by intro h; cases h))
      (by intro _; rfl))

end SimpleOS
